import Mathlib

/-!
Shallow embedding of `core/types/block.go` (package `types`) of
EDXFund/Validator: the block/header data model, deep-copy semantics,
derived-field construction, lazy hash/size caching, relay-format
encoding/decoding, and the block-ordering facility.

Pointer-like Go values (`*big.Int`, `[]byte`, `[]*Transaction`,
`ContractResults`) are modelled with an explicit heap of addressed cells,
so that aliasing (shared backing storage) and deep copying (freshly
allocated storage) are observable facts: two references alias exactly when
they hold the same address, and mutation is a heap update at an address.
Machine words are `Fin (2 ^ w)`; `*big.Int` values are unbounded `Int`.
External collaborators (the Merkle-root function `DeriveSha`, the bloom
builder `CreateBloom`, the Keccak-256 primitive) are parameters bundled in
`Externals`; the canonical RLP engine is modelled concretely below.
-/

namespace EDX

/-- 32-byte hash value (`common.Hash`). -/
abbrev Hash := Fin (2 ^ 256)

/-- 20-byte address (`common.Address`). -/
abbrev Address := Fin (2 ^ 160)

/-- 256-byte logs bloom (`types.Bloom`). -/
abbrev Bloom := Fin (2 ^ 2048)

/-- 8-byte block nonce interpreted as a big-endian 64-bit integer
(`types.BlockNonce`). -/
abbrev Nonce := Fin (2 ^ 64)

/-- 64-bit unsigned machine integer (`uint64`). -/
abbrev U64 := Fin (2 ^ 64)

/-- 16-bit unsigned machine integer (`uint16`, the shard id). -/
abbrev U16 := Fin (2 ^ 16)

/-- Modelled from the spec: transaction entities are external
collaborators (`types.Transaction`, defined outside `block.go`); all this
file needs is their hash identity (`tx.Hash()`), so a transaction is
modelled as its hash. -/
structure Transaction where
  hash : Hash
deriving DecidableEq, Repr

/-- Modelled from the spec: contract-result (receipt) entities are
external collaborators (`types.ContractResult`); `block.go` reads only
their `TxHash` field, so a receipt is modelled as that field. -/
structure ContractResult where
  txHash : Hash
deriving DecidableEq, Repr

/-- The heap: addressed cells for `*big.Int` values, `[]byte` backing
arrays, transaction slices and receipt slices, plus the next fresh
address.  A single allocation counter serves every cell kind. -/
structure Heap where
  ints : Nat → Int
  bytes : Nat → List Nat
  txs : Nat → List Transaction
  rcs : Nat → List ContractResult
  next : Nat

/-- Allocate a fresh `*big.Int` cell holding `v`. -/
def Heap.allocInt (H : Heap) (v : Int) : Nat × Heap :=
  (H.next,
   { H with ints := fun a => if a = H.next then v else H.ints a,
            next := H.next + 1 })

/-- Allocate a fresh byte-array cell holding `bs`. -/
def Heap.allocBytes (H : Heap) (bs : List Nat) : Nat × Heap :=
  (H.next,
   { H with bytes := fun a => if a = H.next then bs else H.bytes a,
            next := H.next + 1 })

/-- Allocate a fresh transaction-slice cell holding `l`. -/
def Heap.allocTxs (H : Heap) (l : List Transaction) : Nat × Heap :=
  (H.next,
   { H with txs := fun a => if a = H.next then l else H.txs a,
            next := H.next + 1 })

/-- Allocate a fresh receipt-slice cell holding `l`. -/
def Heap.allocRcs (H : Heap) (l : List ContractResult) : Nat × Heap :=
  (H.next,
   { H with rcs := fun a => if a = H.next then l else H.rcs a,
            next := H.next + 1 })

/-- Mutate the `*big.Int` cell at `a` (writing through a big-integer
pointer: every alias observes the new value). -/
def Heap.writeInt (H : Heap) (a : Nat) (v : Int) : Heap :=
  { H with ints := fun x => if x = a then v else H.ints x }

/-- Mutate one byte of the byte array at `a` through a slice of that
backing array: Go bounds-checks the index against the slice length, so an
out-of-range write is impossible (modelled as a no-op). -/
def Heap.writeByteAt (H : Heap) (a : Nat) (i : Nat) (v : Nat) : Heap :=
  if i < (H.bytes a).length then
    { H with bytes := fun x => if x = a then (H.bytes a).set i v else H.bytes x }
  else H

/-- Replace the transaction slice stored at `a` (mutation through a shared
slice reference). -/
def Heap.writeTxs (H : Heap) (a : Nat) (l : List Transaction) : Heap :=
  { H with txs := fun x => if x = a then l else H.txs x }

/-- Replace the receipt slice stored at `a`. -/
def Heap.writeRcs (H : Heap) (a : Nat) (l : List ContractResult) : Heap :=
  { H with rcs := fun x => if x = a then l else H.rcs x }

/-- Value of a possibly-nil `*big.Int`: a nil pointer reads as zero (this
is how the canonical encoder treats nil, and `CopyHeader` copies nil as a
fresh zero). -/
def bigIntVal (H : Heap) : Option Nat → Int
  | none => 0
  | some a => H.ints a

/-- Contents of a possibly-nil `[]byte` slice (nil reads as empty). -/
def sliceBytes (H : Heap) : Option Nat → List Nat
  | none => []
  | some a => H.bytes a

/-- Contents of a possibly-nil `[]*Transaction` slice. -/
def sliceTxs (H : Heap) : Option Nat → List Transaction
  | none => []
  | some a => H.txs a

/-- Contents of a possibly-nil `ContractResults` slice. -/
def sliceRcs (H : Heap) : Option Nat → List ContractResult
  | none => []
  | some a => H.rcs a

/-- `types.Header`: the consensus metadata struct.  `Difficulty`,
`Number`, `Time` are `*big.Int` (nil-able pointers into the heap), and
`Extra` is a `[]byte` slice descriptor (nil or a backing-array address). -/
structure Header where
  shardId : U16
  parentHash : Hash
  coinbase : Address
  root : Hash
  txHash : Hash
  receiptHash : Hash
  bloom : Bloom
  difficulty : Option Nat
  number : Option Nat
  gasLimit : U64
  gasUsed : U64
  time : Option Nat
  extra : Option Nat
  mixDigest : Hash
  nonce : Nonce
deriving DecidableEq, Repr

/-- The resolved (pure-value) view of a header: every pointer dereferenced
in a given heap.  Two headers are observationally equal exactly when their
resolved views agree; this is the view the canonical encoder consumes. -/
structure HeaderVal where
  shardId : U16
  parentHash : Hash
  coinbase : Address
  root : Hash
  txHash : Hash
  receiptHash : Hash
  bloom : Bloom
  difficulty : Int
  number : Int
  gasLimit : U64
  gasUsed : U64
  time : Int
  extra : List Nat
  mixDigest : Hash
  nonce : Nonce
deriving DecidableEq, Repr

/-- Resolve a header's pointer fields in a heap. -/
def Header.val (h : Header) (H : Heap) : HeaderVal :=
  { shardId := h.shardId
    parentHash := h.parentHash
    coinbase := h.coinbase
    root := h.root
    txHash := h.txHash
    receiptHash := h.receiptHash
    bloom := h.bloom
    difficulty := bigIntVal H h.difficulty
    number := bigIntVal H h.number
    gasLimit := h.gasLimit
    gasUsed := h.gasUsed
    time := bigIntVal H h.time
    extra := sliceBytes H h.extra
    mixDigest := h.mixDigest
    nonce := h.nonce }

/-- An optional address is well formed when it points below the
allocation frontier. -/
def optWf (n : Nat) : Option Nat → Bool
  | none => true
  | some a => a < n

/-- A header is well formed in a heap when all of its pointer fields lie
below the allocation frontier (every reachable Go pointer does). -/
def Header.wf (h : Header) (H : Heap) : Prop :=
  optWf H.next h.difficulty ∧ optWf H.next h.number ∧
    optWf H.next h.time ∧ optWf H.next h.extra

instance (h : Header) (H : Heap) : Decidable (h.wf H) := by
  unfold Header.wf; infer_instance

/-- `CopyHeader` (`block.go:275`): deep copy of a header.  Fresh
`big.Int`s are always allocated for `Time`, `Difficulty`, `Number` (set to
the source value when the source pointer is non-nil, left zero otherwise);
a fresh `Extra` backing array is allocated only when `len(h.Extra) > 0`,
otherwise the slice descriptor is copied as-is by the struct copy. -/
def CopyHeader (h : Header) (H : Heap) : Header × Heap :=
  let t := H.allocInt (bigIntVal H h.time)
  let d := t.2.allocInt (bigIntVal H h.difficulty)
  let n := d.2.allocInt (bigIntVal H h.number)
  let e : Option Nat × Heap :=
    if 0 < (sliceBytes H h.extra).length then
      let a := n.2.allocBytes (sliceBytes H h.extra)
      (some a.1, a.2)
    else (h.extra, n.2)
  ({ h with time := some t.1, difficulty := some d.1, number := some n.1,
            extra := e.1 },
   e.2)

/-- External collaborators, per the spec's interface: the order-sensitive
Merkle-root function `DeriveSha` (one instance per encodable item kind),
the aggregate bloom builder `CreateBloom`, and the Keccak-256 primitive
applied to canonical bytes. -/
structure Externals where
  deriveShaTxs : List Transaction → Hash
  deriveShaRcs : List ContractResult → Hash
  createBloom : List ContractResult → Bloom
  keccak : List Nat → Hash

/-- `EmptyRootHash = DeriveSha(Transactions{})` (`block.go:20`). -/
def EmptyRootHash (E : Externals) : Hash :=
  E.deriveShaTxs []

/-- `types.Block`: a header plus body slices and the two lazily-set
caches.  `transactions`/`receipts` are Go slice descriptors (nil or a
backing-cell address); the caches are `atomic.Value`s that are either
unset or hold a computed value; `td` is the total-difficulty pointer. -/
structure Block where
  header : Header
  transactions : Option Nat
  receipts : Option Nat
  hashCache : Option Hash
  sizeCache : Option Nat
  td : Option Nat
deriving DecidableEq, Repr

/-- The transactions of a block, read through its slice descriptor. -/
def Block.txList (b : Block) (H : Heap) : List Transaction :=
  sliceTxs H b.transactions

/-- The receipts of a block, read through its slice descriptor. -/
def Block.rcList (b : Block) (H : Heap) : List ContractResult :=
  sliceRcs H b.receipts

/-- `NewBlock` (`block.go:243`): deep-copies the header, allocates a fresh
zero total-difficulty, then overwrites the derived fields: `TxHash`
becomes `EmptyRootHash` on an empty transaction list and `DeriveSha(txs)`
otherwise (retaining a copied slice); `ReceiptHash` becomes
`EmptyRootHash` on an empty receipt list, otherwise `DeriveSha(receipts)`
with `Bloom` recomputed by `CreateBloom(receipts)`. -/
def NewBlock (E : Externals) (header : Header) (txs : List Transaction)
    (receipts : List ContractResult) (H : Heap) : Block × Heap :=
  let c := CopyHeader header H
  let td := c.2.allocInt 0
  let t : Header × Option Nat × Heap :=
    if txs.length = 0 then
      ({ c.1 with txHash := EmptyRootHash E }, none, td.2)
    else
      let a := td.2.allocTxs txs
      ({ c.1 with txHash := E.deriveShaTxs txs }, some a.1, a.2)
  let r : Header × Option Nat × Heap :=
    if receipts.length = 0 then
      ({ t.1 with receiptHash := EmptyRootHash E }, none, t.2.2)
    else
      let a := t.2.2.allocRcs receipts
      ({ t.1 with receiptHash := E.deriveShaRcs receipts,
                  bloom := E.createBloom receipts }, some a.1, a.2)
  ({ header := r.1, transactions := t.2.1, receipts := r.2.1,
     hashCache := none, sizeCache := none, td := some td.1 },
   r.2.2)

/-- `NewBlockWithHeader` (`block.go:269`): wraps a deep copy of the header
with empty body and unset caches; derived fields are not touched. -/
def NewBlockWithHeader (header : Header) (H : Heap) : Block × Heap :=
  let c := CopyHeader header H
  ({ header := c.1, transactions := none, receipts := none,
     hashCache := none, sizeCache := none, td := none },
   c.2)

/-- `WithSeal` (`block.go:388`): a new block with the body of `b` shared
by reference and the header replaced by `cpy := *header`, a shallow struct
copy — the pointer fields (`Difficulty`, `Number`, `Time`, `Extra`) of the
stored header are the very addresses of the passed-in header's. -/
def Block.WithSeal (b : Block) (header : Header) : Block :=
  { header := header, transactions := b.transactions,
    receipts := b.receipts, hashCache := none, sizeCache := none,
    td := none }

/-- `WithBody` (`block.go:399`): deep-copied header, copied body slices. -/
def Block.WithBody (b : Block) (transactions : List Transaction)
    (contractReceipts : List ContractResult) (H : Heap) : Block × Heap :=
  let c := CopyHeader b.header H
  let ta := c.2.allocTxs transactions
  let ra := ta.2.allocRcs contractReceipts
  ({ header := c.1, transactions := some ta.1, receipts := some ra.1,
     hashCache := none, sizeCache := none, td := none },
   ra.2)

/-- `Body` (`block.go:175`): a non-owning view pairing the block's
transaction and receipt slice descriptors. -/
structure Body where
  transactions : Option Nat
  receipts : Option Nat
deriving DecidableEq, Repr

/-- `Block.Transactions` (`block.go:327`): returns the internal slice
descriptor itself, no defensive copy. -/
def Block.Transactions (b : Block) : Option Nat :=
  b.transactions

/-- `Block.Receiptions` (`block.go:329`): returns the internal receipt
slice descriptor itself. -/
def Block.Receiptions (b : Block) : Option Nat :=
  b.receipts

/-- `Block.ContractReceipts` (`block.go:339`): same as `Receiptions`. -/
def Block.ContractReceipts (b : Block) : Option Nat :=
  b.receipts

/-- `Block.Body` (`block.go:372`): pairs the two internal slice
descriptors in a fresh `Body` view. -/
def Block.body (b : Block) : Body :=
  { transactions := b.transactions, receipts := b.receipts }

/-- `Block.Transaction` (`block.go:331`): linear scan of the transaction
list for the first transaction whose `Hash()` equals `hash`; nil (absence)
when none matches. -/
def Block.transaction (b : Block) (H : Heap) (hash : Hash) :
    Option Transaction :=
  (b.txList H).find? fun transaction => transaction.hash = hash

/-- `Block.ContrcatReceipt` (`block.go:341`): linear scan of the receipt
list for the first receipt whose `TxHash` equals `hash`; nil (absence)
when none matches. -/
def Block.ContrcatReceipt (b : Block) (H : Heap) (hash : Hash) :
    Option ContractResult :=
  (b.rcList H).find? fun receipt => receipt.txHash = hash

/-- `Block.Number` (`block.go:350`): `new(big.Int).Set(b.header.Number)`,
a freshly allocated copy of the number. -/
def Block.number (b : Block) (H : Heap) : Nat × Heap :=
  H.allocInt (bigIntVal H b.header.number)

/-- `Block.Difficulty` (`block.go:353`): freshly allocated copy. -/
def Block.difficulty (b : Block) (H : Heap) : Nat × Heap :=
  H.allocInt (bigIntVal H b.header.difficulty)

/-- `Block.Time` (`block.go:354`): freshly allocated copy. -/
def Block.time (b : Block) (H : Heap) : Nat × Heap :=
  H.allocInt (bigIntVal H b.header.time)

/-- `Block.Bloom` (`block.go:359`): value read of the header bloom. -/
def Block.bloomOf (b : Block) : Bloom :=
  b.header.bloom

/-- `Block.TxHash` (`block.go:363`). -/
def Block.txHashOf (b : Block) : Hash :=
  b.header.txHash

/-- `Block.ReceiptHash` (`block.go:364`). -/
def Block.receiptHashOf (b : Block) : Hash :=
  b.header.receiptHash

/-- `Block.Extra` (`block.go:367`): `common.CopyBytes(b.header.Extra)` —
nil stays nil, otherwise a freshly allocated byte copy (modelled from the
spec for `common.CopyBytes`, which is outside this file: "those returning
mutable-looking values ... must return independent copies"). -/
def Block.extraOf (b : Block) (H : Heap) : Option Nat × Heap :=
  match b.header.extra with
  | none => (none, H)
  | some a =>
    let c := H.allocBytes (H.bytes a)
    (some c.1, c.2)

/-- `Block.Header` (`block.go:369`): a full deep copy via `CopyHeader`,
never the internal instance. -/
def Block.headerCopy (b : Block) (H : Heap) : Header × Heap :=
  CopyHeader b.header H

/-! Modelled from the spec: the canonical encoder/decoder engine (the
`rlp` package) is an external collaborator absent from the sources; per
the spec it is an injective, order-fixed "encode ordered field list to
canonical bytes" service whose decode fails with an error on
truncated/malformed input.  It is modelled concretely over `Nat` tokens:
scalars are single tokens, unbounded integers are sign/magnitude token
pairs, variable-length sequences are length-prefixed, and a block is a
two-token list header `[192, contentLength]` followed by the content. -/

/-- Modelled from the spec: canonical encoding of an unbounded integer as
a sign token (0 or 1) followed by the magnitude. -/
def encInt (i : Int) : List Nat :=
  if i < 0 then [1, (-i).toNat] else [0, i.toNat]

/-- Modelled from the spec: canonical encoding of a header's ordered
field list (field order fixed, part of the wire contract). -/
def encHeaderVal (hv : HeaderVal) : List Nat :=
  [hv.shardId.val, hv.parentHash.val, hv.coinbase.val, hv.root.val,
   hv.txHash.val, hv.receiptHash.val, hv.bloom.val] ++
  encInt hv.difficulty ++ encInt hv.number ++
  [hv.gasLimit.val, hv.gasUsed.val] ++ encInt hv.time ++
  (hv.extra.length :: hv.extra) ++ [hv.mixDigest.val, hv.nonce.val]

/-- Modelled from the spec: canonical encoding of a transaction (its hash
identity). -/
def encTx (t : Transaction) : List Nat :=
  [t.hash.val]

/-- Modelled from the spec: length-prefixed transaction sequence. -/
def encTxs (l : List Transaction) : List Nat :=
  l.length :: l.flatMap encTx

/-- Modelled from the spec: canonical encoding of a receipt. -/
def encRc (r : ContractResult) : List Nat :=
  [r.txHash.val]

/-- Modelled from the spec: length-prefixed receipt sequence. -/
def encRcs (l : List ContractResult) : List Nat :=
  l.length :: l.flatMap encRc

/-- Modelled from the spec: the relay-format (`extblock`) content —
header, transaction list, receipt list, in that fixed order. -/
def encPayload (hv : HeaderVal) (txs : List Transaction)
    (rcs : List ContractResult) : List Nat :=
  encHeaderVal hv ++ encTxs txs ++ encRcs rcs

/-- `rlp.ListSize(contentSize)`: total encoded size of a list with the
given content size (list header plus content; the modelled list header is
two tokens). -/
def listSize (contentSize : Nat) : Nat :=
  contentSize + 2

/-- Modelled from the spec: the full relay-format encoding of a block —
list header followed by the content. -/
def encodeExtBytes (hv : HeaderVal) (txs : List Transaction)
    (rcs : List ContractResult) : List Nat :=
  192 :: (encPayload hv txs rcs).length :: encPayload hv txs rcs

/-- `s.Kind()` of the modelled stream: the content size of the list at
the head of the input, 0 when the input is not a list (the Go code
discards `Kind`'s error; a malformed head also fails the subsequent
`Decode`). -/
def kindSize : List Nat → Nat
  | 192 :: n :: _ => n
  | _ => 0

/-- Modelled from the spec: read one token. -/
def pTok : List Nat → Except String (Nat × List Nat)
  | [] => .error "unexpected EOF"
  | t :: r => .ok (t, r)

/-- Modelled from the spec: read one fixed-width scalar, rejecting
out-of-range tokens. -/
def pFin (m : Nat) (bs : List Nat) : Except String (Fin m × List Nat) := do
  let (t, r) ← pTok bs
  if h : t < m then .ok (⟨t, h⟩, r) else .error "scalar out of range"

/-- Modelled from the spec: read a sign/magnitude integer, rejecting an
invalid sign token. -/
def pInt (bs : List Nat) : Except String (Int × List Nat) := do
  let (s, r) ← pTok bs
  let (m, r2) ← pTok r
  if s = 0 then .ok ((m : Int), r2)
  else if s = 1 then .ok (-(m : Int), r2)
  else .error "invalid sign token"

/-- Modelled from the spec: read a length-prefixed raw token sequence,
rejecting truncated input. -/
def pRaw (bs : List Nat) : Except String (List Nat × List Nat) := do
  let (n, r) ← pTok bs
  if n ≤ r.length then .ok (r.take n, r.drop n)
  else .error "truncated sequence"

/-- Modelled from the spec: read exactly `n` transactions. -/
def pTxsN : Nat → List Nat → Except String (List Transaction × List Nat)
  | 0, bs => .ok ([], bs)
  | n + 1, bs => do
    let (h, r) ← pFin (2 ^ 256) bs
    let (l, r2) ← pTxsN n r
    .ok (⟨h⟩ :: l, r2)

/-- Modelled from the spec: read a length-prefixed transaction list. -/
def pTxs (bs : List Nat) : Except String (List Transaction × List Nat) := do
  let (n, r) ← pTok bs
  pTxsN n r

/-- Modelled from the spec: read exactly `n` receipts. -/
def pRcsN : Nat → List Nat → Except String (List ContractResult × List Nat)
  | 0, bs => .ok ([], bs)
  | n + 1, bs => do
    let (h, r) ← pFin (2 ^ 256) bs
    let (l, r2) ← pRcsN n r
    .ok (⟨h⟩ :: l, r2)

/-- Modelled from the spec: read a length-prefixed receipt list. -/
def pRcs (bs : List Nat) : Except String (List ContractResult × List Nat) := do
  let (n, r) ← pTok bs
  pRcsN n r

/-- Modelled from the spec: decode a header's ordered field list. -/
def pHeaderVal (bs : List Nat) : Except String (HeaderVal × List Nat) := do
  let (shardId, r1) ← pFin (2 ^ 16) bs
  let (parentHash, r2) ← pFin (2 ^ 256) r1
  let (coinbase, r3) ← pFin (2 ^ 160) r2
  let (root, r4) ← pFin (2 ^ 256) r3
  let (txHash, r5) ← pFin (2 ^ 256) r4
  let (receiptHash, r6) ← pFin (2 ^ 256) r5
  let (bloom, r7) ← pFin (2 ^ 2048) r6
  let (difficulty, r8) ← pInt r7
  let (number, r9) ← pInt r8
  let (gasLimit, r10) ← pFin (2 ^ 64) r9
  let (gasUsed, r11) ← pFin (2 ^ 64) r10
  let (time, r12) ← pInt r11
  let (extra, r13) ← pRaw r12
  let (mixDigest, r14) ← pFin (2 ^ 256) r13
  let (nonce, r15) ← pFin (2 ^ 64) r14
  .ok ({ shardId := shardId, parentHash := parentHash,
         coinbase := coinbase, root := root, txHash := txHash,
         receiptHash := receiptHash, bloom := bloom,
         difficulty := difficulty, number := number,
         gasLimit := gasLimit, gasUsed := gasUsed, time := time,
         extra := extra, mixDigest := mixDigest, nonce := nonce }, r15)

/-- Modelled from the spec: decode the relay-format content. -/
def pPayload (bs : List Nat) :
    Except String (HeaderVal × List Transaction × List ContractResult ×
      List Nat) := do
  let (hv, r1) ← pHeaderVal bs
  let (txs, r2) ← pTxs r1
  let (rcs, r3) ← pRcs r2
  .ok (hv, txs, rcs, r3)

/-- Modelled from the spec: `s.Decode(&eb)` — decode a full `extblock`
from the head of the stream, failing on malformed, truncated or
structurally invalid input; the list content must be consumed exactly. -/
def parseExtblock (bs : List Nat) :
    Except String (HeaderVal × List Transaction × List ContractResult) :=
  match bs with
  | 192 :: n :: rest =>
    if n ≤ rest.length then
      match pPayload (rest.take n) with
      | .ok (hv, txs, rcs, []) => .ok (hv, txs, rcs)
      | .ok _ => .error "extra data inside list"
      | .error e => .error e
    else .error "truncated list"
  | _ => .error "not a list"

/-- Allocate a freshly decoded header into the heap: decoded `big.Int`
and `[]byte` fields occupy fresh cells. -/
def HeaderVal.alloc (hv : HeaderVal) (H : Heap) : Header × Heap :=
  let d := H.allocInt hv.difficulty
  let n := d.2.allocInt hv.number
  let t := n.2.allocInt hv.time
  let e := t.2.allocBytes hv.extra
  ({ shardId := hv.shardId, parentHash := hv.parentHash,
     coinbase := hv.coinbase, root := hv.root, txHash := hv.txHash,
     receiptHash := hv.receiptHash, bloom := hv.bloom,
     difficulty := some d.1, number := some n.1,
     gasLimit := hv.gasLimit, gasUsed := hv.gasUsed, time := some t.1,
     extra := some e.1, mixDigest := hv.mixDigest, nonce := hv.nonce },
   e.2)

/-- `Block.DecodeRLP` (`block.go:294`): read the list size from
`s.Kind()` (error discarded), run the engine's decode — propagating its
error to the caller with the receiver untouched — and on success install
the decoded header and body and store `rlp.ListSize(size)` in the size
cache. -/
def Block.decodeRLP (b : Block) (H : Heap) (bs : List Nat) :
    Except String Unit × Block × Heap :=
  let size := kindSize bs
  match parseExtblock bs with
  | .error e => (.error e, b, H)
  | .ok (hv, txs, rcs) =>
    let hd := hv.alloc H
    let ta := hd.2.allocTxs txs
    let ra := ta.2.allocRcs rcs
    (.ok (),
     { b with header := hd.1, transactions := some ta.1,
              receipts := some ra.1, sizeCache := some (listSize size) },
     ra.2)

/-- `Block.EncodeRLP` (`block.go:306`): the relay-format bytes of the
block's current header and body. -/
def Block.encodeBytes (b : Block) (H : Heap) : List Nat :=
  encodeExtBytes (b.header.val H) (b.txList H) (b.rcList H)

/-- `rlpHash` (`block.go:61`) applied to a header, i.e. `Header.Hash`
(`block.go:160`): the Keccak-256 hash of the header's canonical
relay-format encoding. -/
def Header.hashOf (h : Header) (E : Externals) (H : Heap) : Hash :=
  E.keccak (encHeaderVal (h.val H))

/-- `Block.Hash` (`block.go:414`): return the cached hash when set;
otherwise compute the header's identity hash, store it, and return it. -/
def Block.hashGet (b : Block) (E : Externals) (H : Heap) : Hash × Block :=
  match b.hashCache with
  | some h => (h, b)
  | none =>
    let v := b.header.hashOf E H
    (v, { b with hashCache := some v })

/-- `Block.Size` (`block.go:376`): return the cached size when set;
otherwise encode the block through a byte counter, store the byte length,
and return it. -/
def Block.sizeGet (b : Block) (H : Heap) : Nat × Block :=
  match b.sizeCache with
  | some n => (n, b)
  | none =>
    let n := (b.encodeBytes H).length
    (n, { b with sizeCache := some n })

/-- `BlockBy` (`block.go:423`): a binary less-than comparator over
blocks.  The heap is the environment the comparator's closure reads
pointer fields through. -/
abbrev BlockBy := Block → Block → Bool

/-- `Number` (`block.go:444`): the standard comparator — ascending by the
headers' unbounded big-integer `Number` fields. -/
def numberLess (H : Heap) (b1 b2 : Block) : Bool :=
  decide (bigIntVal H b1.header.number < bigIntVal H b2.header.number)

/-- `BlockBy.Sort` (`block.go:425`): sort the collection with the
comparator through the general-purpose sort (modelled from the spec: the
engine is the external stdlib sort, "a stable or unstable general-purpose
sort"; the Go sort interface puts `i` before `j` when `¬ Less(a[j], a[i])`
holds pairwise, so the sort orders by the non-strict complement of the
comparator). -/
def BlockBy.Sort (self : BlockBy) (blocks : List Block) : List Block :=
  blocks.mergeSort fun b1 b2 => !self b2 b1

instance : NeZero ((2 : Nat) ^ 16) := ⟨by positivity⟩

instance : NeZero ((2 : Nat) ^ 64) := ⟨by positivity⟩

instance : NeZero ((2 : Nat) ^ 160) := ⟨by positivity⟩

instance : NeZero ((2 : Nat) ^ 256) := ⟨by positivity⟩

instance : NeZero ((2 : Nat) ^ 2048) := ⟨by positivity⟩

/-- A concrete external-collaborator instance for evaluating the model on
closed inputs. -/
def cE : Externals :=
  { deriveShaTxs := fun l => ⟨l.length % 2 ^ 256, Nat.mod_lt _ (by positivity)⟩
    deriveShaRcs := fun l => ⟨l.length % 2 ^ 256, Nat.mod_lt _ (by positivity)⟩
    createBloom := fun l => ⟨l.length % 2 ^ 2048, Nat.mod_lt _ (by positivity)⟩
    keccak := fun l => ⟨l.length % 2 ^ 256, Nat.mod_lt _ (by positivity)⟩ }

/-- The empty concrete heap. -/
def cHeap0 : Heap :=
  { ints := fun _ => 0, bytes := fun _ => [], txs := fun _ => [],
    rcs := fun _ => [], next := 0 }

/-- A concrete heap with one allocated `big.Int` cell (address 0,
value 5). -/
def cHeapD : Heap :=
  { ints := fun _ => 5, bytes := fun _ => [], txs := fun _ => [],
    rcs := fun _ => [], next := 1 }

/-- A concrete header with every pointer field nil. -/
def cHdr : Header :=
  { shardId := 0, parentHash := 0, coinbase := 0, root := 0, txHash := 3,
    receiptHash := 4, bloom := 9, difficulty := none, number := none,
    gasLimit := 0, gasUsed := 0, time := none, extra := none,
    mixDigest := 0, nonce := 0 }

/-- A concrete header whose `Difficulty` points at cell 0 of `cHeapD`. -/
def cHdrD : Header :=
  { cHdr with difficulty := some 0 }

/-- A concrete header whose `Extra` points at cell 0 (an empty backing
array in `cHeapD`). -/
def cHdrX : Header :=
  { cHdr with extra := some 0 }

/-- A concrete block with empty body and no caches. -/
def cBlock : Block :=
  { header := cHdr, transactions := none, receipts := none,
    hashCache := none, sizeCache := none, td := none }

/-- A concrete header value for codec evaluation. -/
def cHv : HeaderVal :=
  { shardId := 1, parentHash := 2, coinbase := 3, root := 4, txHash := 5,
    receiptHash := 6, bloom := 7, difficulty := -9, number := 11,
    gasLimit := 12, gasUsed := 13, time := 0, extra := [9, 8],
    mixDigest := 14, nonce := 15 }

/-- A concrete heap holding one transaction slice and one receipt slice
at address 0. -/
def cHeapTx : Heap :=
  { ints := fun _ => 0, bytes := fun _ => [],
    txs := fun _ => [⟨100⟩, ⟨200⟩], rcs := fun _ => [⟨100⟩], next := 1 }

/-- A concrete block whose body slices point at address 0 of `cHeapTx`. -/
def cBlockTx : Block :=
  { header := cHdr, transactions := some 0, receipts := some 0,
    hashCache := none, sizeCache := none, td := none }

/-! ### Codec roundtrip lemmas -/

theorem exc_bind_ok {ε α β : Type} (a : α) (f : α → Except ε β) :
    ((Except.ok a : Except ε α) >>= f) = f a :=
  rfl

theorem pTok_cons (t : Nat) (r : List Nat) : pTok (t :: r) = .ok (t, r) :=
  rfl

theorem pFin_enc (m : Nat) (f : Fin m) (r : List Nat) :
    pFin m (f.val :: r) = .ok (f, r) := by
  simp only [pFin, pTok_cons, exc_bind_ok, f.isLt, dif_pos, Fin.eta]

theorem pInt_enc (i : Int) (r : List Nat) :
    pInt (encInt i ++ r) = .ok (i, r) := by
  by_cases h : i < 0
  · simp only [encInt, if_pos h, List.cons_append, List.nil_append,
      pInt, pTok_cons, exc_bind_ok]
    norm_num [Except.ok.injEq, Prod.mk.injEq]
    omega
  · simp only [encInt, if_neg h, List.cons_append, List.nil_append,
      pInt, pTok_cons, exc_bind_ok]
    norm_num [Except.ok.injEq, Prod.mk.injEq]
    omega

theorem pRaw_enc (l r : List Nat) :
    pRaw (l.length :: (l ++ r)) = .ok (l, r) := by
  have hle : l.length ≤ (l ++ r).length := by
    simp [List.length_append]
  simp only [pRaw, pTok_cons, exc_bind_ok, if_pos hle,
    List.take_left, List.drop_left]

theorem pTxsN_enc (l : List Transaction) (r : List Nat) :
    pTxsN l.length (l.flatMap encTx ++ r) = .ok (l, r) := by
  induction l with
  | nil => simp [pTxsN]
  | cons t ts ih =>
    show pTxsN (ts.length + 1) (([t.hash.val] ++ ts.flatMap encTx) ++ r)
      = .ok (t :: ts, r)
    rw [List.append_assoc]
    simp only [List.cons_append, List.nil_append, pTxsN, pFin_enc,
      exc_bind_ok, ih]

theorem pTxs_enc (l : List Transaction) (r : List Nat) :
    pTxs (encTxs l ++ r) = .ok (l, r) := by
  show pTxs (l.length :: (l.flatMap encTx ++ r)) = .ok (l, r)
  simp only [pTxs, pTok_cons, exc_bind_ok, pTxsN_enc]

theorem pRcsN_enc (l : List ContractResult) (r : List Nat) :
    pRcsN l.length (l.flatMap encRc ++ r) = .ok (l, r) := by
  induction l with
  | nil => simp [pRcsN]
  | cons t ts ih =>
    show pRcsN (ts.length + 1) (([t.txHash.val] ++ ts.flatMap encRc) ++ r)
      = .ok (t :: ts, r)
    rw [List.append_assoc]
    simp only [List.cons_append, List.nil_append, pRcsN, pFin_enc,
      exc_bind_ok, ih]

theorem pRcs_enc (l : List ContractResult) (r : List Nat) :
    pRcs (encRcs l ++ r) = .ok (l, r) := by
  show pRcs (l.length :: (l.flatMap encRc ++ r)) = .ok (l, r)
  simp only [pRcs, pTok_cons, exc_bind_ok, pRcsN_enc]

theorem pHeaderVal_enc (hv : HeaderVal) (r : List Nat) :
    pHeaderVal (encHeaderVal hv ++ r) = .ok (hv, r) := by
  simp only [encHeaderVal, List.cons_append, List.nil_append,
    List.append_assoc]
  rw [pHeaderVal]
  simp only [pFin_enc, exc_bind_ok, pInt_enc, pRaw_enc]

theorem pPayload_enc (hv : HeaderVal) (txs : List Transaction)
    (rcs : List ContractResult) (r : List Nat) :
    pPayload (encPayload hv txs rcs ++ r) = .ok (hv, txs, rcs, r) := by
  rw [pPayload, encPayload, List.append_assoc, List.append_assoc]
  simp only [pHeaderVal_enc, exc_bind_ok, pTxs_enc, pRcs_enc]

theorem parseExtblock_enc (hv : HeaderVal) (txs : List Transaction)
    (rcs : List ContractResult) :
    parseExtblock (encodeExtBytes hv txs rcs) = .ok (hv, txs, rcs) := by
  have hp : pPayload (encPayload hv txs rcs) = .ok (hv, txs, rcs, []) := by
    have h2 := pPayload_enc hv txs rcs []
    rwa [List.append_nil] at h2
  simp only [parseExtblock, encodeExtBytes, le_refl, if_pos,
    List.take_length, hp]

theorem encodeExtBytes_length (hv : HeaderVal) (txs : List Transaction)
    (rcs : List ContractResult) :
    (encodeExtBytes hv txs rcs).length =
      listSize (kindSize (encodeExtBytes hv txs rcs)) := by
  simp [encodeExtBytes, kindSize, listSize]

/-! ### Heap lemmas -/

theorem allocInt_next (H : Heap) (v : Int) :
    (H.allocInt v).2.next = H.next + 1 :=
  rfl

theorem allocInt_ints_self (H : Heap) (v : Int) :
    (H.allocInt v).2.ints H.next = v := by
  simp [Heap.allocInt]

theorem allocInt_ints_ne (H : Heap) (v : Int) (a : Nat) (h : a ≠ H.next) :
    (H.allocInt v).2.ints a = H.ints a := by
  simp [Heap.allocInt, h]

theorem allocInt_bytes (H : Heap) (v : Int) :
    (H.allocInt v).2.bytes = H.bytes :=
  rfl

theorem allocInt_txs (H : Heap) (v : Int) :
    (H.allocInt v).2.txs = H.txs :=
  rfl

theorem allocInt_rcs (H : Heap) (v : Int) :
    (H.allocInt v).2.rcs = H.rcs :=
  rfl

theorem allocBytes_next (H : Heap) (bs : List Nat) :
    (H.allocBytes bs).2.next = H.next + 1 :=
  rfl

theorem allocBytes_bytes_self (H : Heap) (bs : List Nat) :
    (H.allocBytes bs).2.bytes H.next = bs := by
  simp [Heap.allocBytes]

theorem allocBytes_bytes_ne (H : Heap) (bs : List Nat) (a : Nat)
    (h : a ≠ H.next) : (H.allocBytes bs).2.bytes a = H.bytes a := by
  simp [Heap.allocBytes, h]

theorem allocBytes_ints (H : Heap) (bs : List Nat) :
    (H.allocBytes bs).2.ints = H.ints :=
  rfl

theorem allocBytes_txs (H : Heap) (bs : List Nat) :
    (H.allocBytes bs).2.txs = H.txs :=
  rfl

theorem allocBytes_rcs (H : Heap) (bs : List Nat) :
    (H.allocBytes bs).2.rcs = H.rcs :=
  rfl

theorem allocTxs_next (H : Heap) (l : List Transaction) :
    (H.allocTxs l).2.next = H.next + 1 :=
  rfl

theorem allocTxs_txs_self (H : Heap) (l : List Transaction) :
    (H.allocTxs l).2.txs H.next = l := by
  simp [Heap.allocTxs]

theorem allocTxs_ints (H : Heap) (l : List Transaction) :
    (H.allocTxs l).2.ints = H.ints :=
  rfl

theorem allocTxs_bytes (H : Heap) (l : List Transaction) :
    (H.allocTxs l).2.bytes = H.bytes :=
  rfl

theorem allocTxs_rcs (H : Heap) (l : List Transaction) :
    (H.allocTxs l).2.rcs = H.rcs :=
  rfl

theorem allocRcs_next (H : Heap) (l : List ContractResult) :
    (H.allocRcs l).2.next = H.next + 1 :=
  rfl

theorem allocRcs_rcs_self (H : Heap) (l : List ContractResult) :
    (H.allocRcs l).2.rcs H.next = l := by
  simp [Heap.allocRcs]

theorem allocRcs_ints (H : Heap) (l : List ContractResult) :
    (H.allocRcs l).2.ints = H.ints :=
  rfl

theorem allocRcs_bytes (H : Heap) (l : List ContractResult) :
    (H.allocRcs l).2.bytes = H.bytes :=
  rfl

theorem allocRcs_txs (H : Heap) (l : List ContractResult) :
    (H.allocRcs l).2.txs H.next = H.txs H.next := by
  simp [Heap.allocRcs]

theorem allocRcs_txs_all (H : Heap) (l : List ContractResult) :
    (H.allocRcs l).2.txs = H.txs :=
  rfl

theorem writeInt_ints_ne (H : Heap) (a : Nat) (v : Int) (x : Nat)
    (h : x ≠ a) : (H.writeInt a v).ints x = H.ints x := by
  simp [Heap.writeInt, h]

theorem writeInt_bytes (H : Heap) (a : Nat) (v : Int) :
    (H.writeInt a v).bytes = H.bytes :=
  rfl

theorem writeByteAt_ints (H : Heap) (a : Nat) (i v : Nat) :
    (H.writeByteAt a i v).ints = H.ints := by
  unfold Heap.writeByteAt
  split <;> rfl

theorem writeByteAt_bytes_ne (H : Heap) (a : Nat) (i v : Nat) (x : Nat)
    (h : x ≠ a) : (H.writeByteAt a i v).bytes x = H.bytes x := by
  unfold Heap.writeByteAt
  split
  · simp [h]
  · rfl

theorem writeByteAt_empty (H : Heap) (a : Nat) (i v : Nat)
    (h : (H.bytes a).length = 0) : H.writeByteAt a i v = H := by
  unfold Heap.writeByteAt
  rw [if_neg]
  omega

/-! ### `CopyHeader` characterization -/

/-- The unresolved (pointer-level) outcome of `CopyHeader`: which
addresses the copy's pointer fields hold, what the final heap contains at
them, and that every pre-existing cell is untouched. -/
theorem copyHeader_fields (h : Header) (H : Heap) :
    (CopyHeader h H).1.time = some H.next ∧
    (CopyHeader h H).1.difficulty = some (H.next + 1) ∧
    (CopyHeader h H).1.number = some (H.next + 2) ∧
    (CopyHeader h H).1.shardId = h.shardId ∧
    (CopyHeader h H).1.parentHash = h.parentHash ∧
    (CopyHeader h H).1.coinbase = h.coinbase ∧
    (CopyHeader h H).1.root = h.root ∧
    (CopyHeader h H).1.txHash = h.txHash ∧
    (CopyHeader h H).1.receiptHash = h.receiptHash ∧
    (CopyHeader h H).1.bloom = h.bloom ∧
    (CopyHeader h H).1.gasLimit = h.gasLimit ∧
    (CopyHeader h H).1.gasUsed = h.gasUsed ∧
    (CopyHeader h H).1.mixDigest = h.mixDigest ∧
    (CopyHeader h H).1.nonce = h.nonce := by
  unfold CopyHeader
  dsimp only
  simp [Heap.allocInt]

theorem copyHeader_extra_pos (h : Header) (H : Heap)
    (hx : 0 < (sliceBytes H h.extra).length) :
    (CopyHeader h H).1.extra = some (H.next + 3) ∧
    (CopyHeader h H).2.next = H.next + 4 := by
  unfold CopyHeader
  dsimp only
  rw [if_pos hx]
  exact ⟨rfl, rfl⟩

theorem copyHeader_extra_zero (h : Header) (H : Heap)
    (hx : (sliceBytes H h.extra).length = 0) :
    (CopyHeader h H).1.extra = h.extra ∧
    (CopyHeader h H).2.next = H.next + 3 := by
  unfold CopyHeader
  dsimp only
  rw [if_neg (by omega)]
  exact ⟨rfl, rfl⟩

theorem copyHeader_ints_eq (h : Header) (H : Heap) :
    (CopyHeader h H).2.ints = fun a =>
      if a = H.next + 1 + 1 then bigIntVal H h.number
      else if a = H.next + 1 then bigIntVal H h.difficulty
      else if a = H.next then bigIntVal H h.time
      else H.ints a := by
  unfold CopyHeader
  dsimp only
  split <;> funext a <;> simp [Heap.allocInt, Heap.allocBytes]

theorem copyHeader_heap_ints (h : Header) (H : Heap) :
    (CopyHeader h H).2.ints H.next = bigIntVal H h.time ∧
    (CopyHeader h H).2.ints (H.next + 1) = bigIntVal H h.difficulty ∧
    (CopyHeader h H).2.ints (H.next + 2) = bigIntVal H h.number ∧
    (∀ a, a ≠ H.next → a ≠ H.next + 1 → a ≠ H.next + 2 →
      (CopyHeader h H).2.ints a = H.ints a) := by
  rw [copyHeader_ints_eq]
  refine ⟨?_, ?_, ?_, fun a h0 h1 h2 => ?_⟩ <;>
    · dsimp only
      split_ifs with c1 c2 c3 <;> first | rfl | omega

theorem copyHeader_bytes_pos (h : Header) (H : Heap)
    (hx : 0 < (sliceBytes H h.extra).length) :
    (CopyHeader h H).2.bytes = fun a =>
      if a = H.next + 1 + 1 + 1 then sliceBytes H h.extra
      else H.bytes a := by
  unfold CopyHeader
  dsimp only
  rw [if_pos hx]
  funext a
  simp [Heap.allocInt, Heap.allocBytes]

theorem copyHeader_bytes_zero (h : Header) (H : Heap)
    (hx : (sliceBytes H h.extra).length = 0) :
    (CopyHeader h H).2.bytes = H.bytes := by
  unfold CopyHeader
  dsimp only
  rw [if_neg (by omega)]
  rfl

theorem copyHeader_heap_bytes (h : Header) (H : Heap) :
    (∀ a, a ≠ H.next + 3 → (CopyHeader h H).2.bytes a = H.bytes a) ∧
    (0 < (sliceBytes H h.extra).length →
      (CopyHeader h H).2.bytes (H.next + 3) = sliceBytes H h.extra) := by
  by_cases hx : 0 < (sliceBytes H h.extra).length
  · rw [copyHeader_bytes_pos h H hx]
    refine ⟨fun a ha => ?_, fun _ => ?_⟩ <;>
      · dsimp only
        split_ifs with c1 <;> first | rfl | omega
  · rw [copyHeader_bytes_zero h H (by omega)]
    exact ⟨fun a _ => rfl, fun hc => absurd hc hx⟩

theorem copyHeader_heap_txs (h : Header) (H : Heap) :
    (CopyHeader h H).2.txs = H.txs := by
  unfold CopyHeader
  dsimp only
  split <;> rfl

theorem copyHeader_heap_rcs (h : Header) (H : Heap) :
    (CopyHeader h H).2.rcs = H.rcs := by
  unfold CopyHeader
  dsimp only
  split <;> rfl

theorem copyHeader_next_le (h : Header) (H : Heap) :
    H.next + 3 ≤ (CopyHeader h H).2.next := by
  unfold CopyHeader
  dsimp only
  split <;> simp [Heap.allocInt, Heap.allocBytes]

/-! ### Resolved-view lemmas -/

theorem bigIntVal_some (H : Heap) (a : Nat) :
    bigIntVal H (some a) = H.ints a :=
  rfl

theorem sliceBytes_some (H : Heap) (a : Nat) :
    sliceBytes H (some a) = H.bytes a :=
  rfl

theorem sliceBytes_congr (H1 H2 : Heap) (o : Option Nat)
    (h : ∀ a, H1.bytes a = H2.bytes a) :
    sliceBytes H1 o = sliceBytes H2 o := by
  cases o
  · rfl
  · exact h _

theorem copyHeader_val (h : Header) (H : Heap) :
    (CopyHeader h H).1.val (CopyHeader h H).2 = h.val H := by
  obtain ⟨ft, fd, fn, fs, fp, fc, fr, ftx, frh, fb, fgl, fgu, fm, fno⟩ :=
    copyHeader_fields h H
  obtain ⟨it, idf, inm, _⟩ := copyHeader_heap_ints h H
  obtain ⟨bother, bpos⟩ := copyHeader_heap_bytes h H
  simp only [Header.val, HeaderVal.mk.injEq]
  refine ⟨by rw [fs], by rw [fp], by rw [fc], by rw [fr], by rw [ftx],
    by rw [frh], by rw [fb], ?_, ?_, by rw [fgl], by rw [fgu], ?_, ?_,
    by rw [fm], by rw [fno]⟩
  · rw [fd, bigIntVal_some]
    exact idf
  · rw [fn, bigIntVal_some]
    exact inm
  · rw [ft, bigIntVal_some]
    exact it
  · by_cases hx : 0 < (sliceBytes H h.extra).length
    · rw [(copyHeader_extra_pos h H hx).1, sliceBytes_some]
      exact bpos hx
    · have hz := copyHeader_bytes_zero h H (by omega)
      rw [(copyHeader_extra_zero h H (by omega)).1]
      exact sliceBytes_congr _ _ _ (fun a => by rw [hz])

theorem bigIntVal_writeInt_ne (H : Heap) (a : Nat) (v : Int)
    (o : Option Nat) (ho : o ≠ some a) :
    bigIntVal (H.writeInt a v) o = bigIntVal H o := by
  cases o with
  | none => rfl
  | some b =>
    rw [bigIntVal_some, bigIntVal_some, writeInt_ints_ne]
    intro hb
    exact ho (by rw [hb])

theorem bigIntVal_writeByteAt (H : Heap) (a : Nat) (i v : Nat)
    (o : Option Nat) :
    bigIntVal (H.writeByteAt a i v) o = bigIntVal H o := by
  cases o with
  | none => rfl
  | some b => rw [bigIntVal_some, bigIntVal_some, writeByteAt_ints]

theorem sliceBytes_writeByteAt_ne (H : Heap) (a : Nat) (i v : Nat)
    (o : Option Nat) (ho : o ≠ some a) :
    sliceBytes (H.writeByteAt a i v) o = sliceBytes H o := by
  cases o with
  | none => rfl
  | some b =>
    rw [sliceBytes_some, sliceBytes_some, writeByteAt_bytes_ne]
    intro hb
    exact ho (by rw [hb])

theorem val_writeInt_ne (h : Header) (H : Heap) (a : Nat) (v : Int)
    (hd : h.difficulty ≠ some a) (hn : h.number ≠ some a)
    (ht : h.time ≠ some a) :
    h.val (H.writeInt a v) = h.val H := by
  unfold Header.val
  rw [bigIntVal_writeInt_ne H a v h.difficulty hd,
    bigIntVal_writeInt_ne H a v h.number hn,
    bigIntVal_writeInt_ne H a v h.time ht,
    sliceBytes_congr (H.writeInt a v) H h.extra (fun x => rfl)]

theorem val_writeByteAt_ne (h : Header) (H : Heap) (a : Nat) (i v : Nat)
    (hx : h.extra ≠ some a) :
    h.val (H.writeByteAt a i v) = h.val H := by
  unfold Header.val
  rw [bigIntVal_writeByteAt H a i v h.difficulty,
    bigIntVal_writeByteAt H a i v h.number,
    bigIntVal_writeByteAt H a i v h.time,
    sliceBytes_writeByteAt_ne H a i v h.extra hx]

/-- `src` cannot interfere with `tgt` in heap `H`: writing through any of
`src`'s big-integer pointers, or through its extra-data slice, leaves
`tgt`'s resolved view unchanged. -/
def hdrIndep (H : Heap) (src tgt : Header) : Prop :=
  (∀ a v, src.difficulty = some a ∨ src.number = some a ∨ src.time = some a →
    tgt.val (H.writeInt a v) = tgt.val H) ∧
  (∀ a i v, src.extra = some a →
    tgt.val (H.writeByteAt a i v) = tgt.val H)

theorem hdrIndep_of_ptrs (H : Heap) (src tgt : Header)
    (hd : ∀ a, src.difficulty = some a ∨ src.number = some a ∨
      src.time = some a →
      tgt.difficulty ≠ some a ∧ tgt.number ≠ some a ∧ tgt.time ≠ some a)
    (hx : ∀ a, src.extra = some a →
      tgt.extra ≠ some a ∨ (H.bytes a).length = 0) :
    hdrIndep H src tgt := by
  constructor
  · intro a v hsrc
    obtain ⟨h1, h2, h3⟩ := hd a hsrc
    exact val_writeInt_ne tgt H a v h1 h2 h3
  · intro a i v hsrc
    rcases hx a hsrc with h1 | h2
    · exact val_writeByteAt_ne tgt H a i v h1
    · rw [writeByteAt_empty H a i v h2]

theorem copyLike_hdrIndep (h hdr2 : Header) (H Hfin : Heap) (hw : h.wf H)
    (ed : hdr2.difficulty = some (H.next + 1))
    (en : hdr2.number = some (H.next + 2))
    (et : hdr2.time = some H.next)
    (ex : hdr2.extra = (CopyHeader h H).1.extra)
    (hbyte : ∀ a, a < H.next → Hfin.bytes a = H.bytes a) :
    hdrIndep Hfin h hdr2 ∧ hdrIndep Hfin hdr2 h := by
  obtain ⟨wd, wn, wt, wx⟩ := hw
  have hlt : ∀ o a, optWf H.next o = true → o = some a → a < H.next := by
    intro o a ho he
    subst he
    simpa [optWf] using ho
  constructor
  · refine hdrIndep_of_ptrs _ _ _ (fun a hsrc => ?_) (fun a hsrc => ?_)
    · have ha : a < H.next := by
        rcases hsrc with h1 | h1 | h1
        · exact hlt _ _ wd h1
        · exact hlt _ _ wn h1
        · exact hlt _ _ wt h1
      refine ⟨?_, ?_, ?_⟩
      · rw [ed]
        intro hc
        have := Option.some.inj hc
        omega
      · rw [en]
        intro hc
        have := Option.some.inj hc
        omega
      · rw [et]
        intro hc
        have := Option.some.inj hc
        omega
    · have ha : a < H.next := hlt _ _ wx hsrc
      by_cases hx : 0 < (sliceBytes H h.extra).length
      · left
        rw [ex, (copyHeader_extra_pos h H hx).1]
        intro hc
        have := Option.some.inj hc
        omega
      · right
        rw [hbyte a ha]
        have he : sliceBytes H h.extra = H.bytes a := by rw [hsrc]; rfl
        rw [he] at hx
        omega
  · refine hdrIndep_of_ptrs _ _ _ (fun a hsrc => ?_) (fun a hsrc => ?_)
    · have ha : H.next ≤ a := by
        rcases hsrc with h1 | h1 | h1
        · rw [ed] at h1
          have := Option.some.inj h1
          omega
        · rw [en] at h1
          have := Option.some.inj h1
          omega
        · rw [et] at h1
          have := Option.some.inj h1
          omega
      refine ⟨?_, ?_, ?_⟩
      · intro hc
        have := hlt _ _ wd hc
        omega
      · intro hc
        have := hlt _ _ wn hc
        omega
      · intro hc
        have := hlt _ _ wt hc
        omega
    · rw [ex] at hsrc
      by_cases hx : 0 < (sliceBytes H h.extra).length
      · rw [(copyHeader_extra_pos h H hx).1] at hsrc
        have hae := Option.some.inj hsrc
        left
        intro hc
        have := hlt _ _ wx hc
        omega
      · rw [(copyHeader_extra_zero h H (by omega)).1] at hsrc
        have ha : a < H.next := hlt _ _ wx hsrc
        right
        rw [hbyte a ha]
        have he : sliceBytes H h.extra = H.bytes a := by rw [hsrc]; rfl
        rw [he] at hx
        omega

theorem copyHeader_hdrIndep (h : Header) (H : Heap) (hw : h.wf H) :
    hdrIndep (CopyHeader h H).2 h (CopyHeader h H).1 ∧
    hdrIndep (CopyHeader h H).2 (CopyHeader h H).1 h := by
  obtain ⟨ft, fd, fn, _⟩ := copyHeader_fields h H
  obtain ⟨bother, _⟩ := copyHeader_heap_bytes h H
  exact copyLike_hdrIndep h (CopyHeader h H).1 H (CopyHeader h H).2 hw
    fd fn ft rfl (fun a ha => bother a (by omega))

/-! ### `NewBlock` characterization -/

theorem newBlock_header_ptrs (E : Externals) (h : Header)
    (txs : List Transaction) (rcs : List ContractResult) (H : Heap) :
    (NewBlock E h txs rcs H).1.header.difficulty =
      (CopyHeader h H).1.difficulty ∧
    (NewBlock E h txs rcs H).1.header.number = (CopyHeader h H).1.number ∧
    (NewBlock E h txs rcs H).1.header.time = (CopyHeader h H).1.time ∧
    (NewBlock E h txs rcs H).1.header.extra = (CopyHeader h H).1.extra := by
  unfold NewBlock
  dsimp only
  split <;> split <;> exact ⟨rfl, rfl, rfl, rfl⟩

theorem newBlock_bytes (E : Externals) (h : Header)
    (txs : List Transaction) (rcs : List ContractResult) (H : Heap) :
    (NewBlock E h txs rcs H).2.bytes = (CopyHeader h H).2.bytes := by
  unfold NewBlock
  dsimp only
  split <;> split <;> rfl

theorem newBlock_txHash (E : Externals) (h : Header)
    (txs : List Transaction) (rcs : List ContractResult) (H : Heap) :
    (NewBlock E h txs rcs H).1.header.txHash =
      if txs = [] then EmptyRootHash E else E.deriveShaTxs txs := by
  unfold NewBlock
  dsimp only
  rcases txs with _ | ⟨t, ts⟩ <;> split <;> simp_all

theorem newBlock_receiptHash (E : Externals) (h : Header)
    (txs : List Transaction) (rcs : List ContractResult) (H : Heap) :
    (NewBlock E h txs rcs H).1.header.receiptHash =
      if rcs = [] then EmptyRootHash E else E.deriveShaRcs rcs := by
  unfold NewBlock
  dsimp only
  rcases rcs with _ | ⟨r, rs⟩ <;> split <;> simp_all

theorem newBlock_bloom (E : Externals) (h : Header)
    (txs : List Transaction) (rcs : List ContractResult) (H : Heap) :
    (NewBlock E h txs rcs H).1.header.bloom =
      if rcs = [] then h.bloom else E.createBloom rcs := by
  obtain ⟨_, _, _, _, _, _, _, _, _, fb, _, _, _, _⟩ :=
    copyHeader_fields h H
  unfold NewBlock
  dsimp only
  rcases rcs with _ | ⟨r, rs⟩ <;> (repeat split) <;> simp_all

theorem newBlock_caches (E : Externals) (h : Header)
    (txs : List Transaction) (rcs : List ContractResult) (H : Heap) :
    (NewBlock E h txs rcs H).1.hashCache = none ∧
    (NewBlock E h txs rcs H).1.sizeCache = none := by
  exact ⟨rfl, rfl⟩

/-! ### Claims -/

/-- C1: `NewBlock(h, txs, rcpts)` sets the block header's `TxHash` to the
well-known empty-set root constant (`EmptyRootHash`) when `txs` is empty
and to `DeriveSha` over `txs` in the given order otherwise; it sets
`ReceiptHash` to the same constant when `rcpts` is empty and to
`DeriveSha` over `rcpts` otherwise, computing `Bloom` via `CreateBloom`
over `rcpts` in the non-empty case; the caller-supplied `TxHash`,
`ReceiptHash` and (when `rcpts` is non-empty) `Bloom` values are discarded
and overwritten — the resulting values do not depend on them. -/
theorem newBlock_derived_roots (E : Externals) (h : Header)
    (txs : List Transaction) (rcs : List ContractResult) (H : Heap) :
    (NewBlock E h txs rcs H).1.header.txHash =
      (if txs = [] then EmptyRootHash E else E.deriveShaTxs txs) ∧
    (NewBlock E h txs rcs H).1.header.receiptHash =
      (if rcs = [] then EmptyRootHash E else E.deriveShaRcs rcs) ∧
    (rcs ≠ [] →
      (NewBlock E h txs rcs H).1.header.bloom = E.createBloom rcs) := by
  refine ⟨newBlock_txHash E h txs rcs H, newBlock_receiptHash E h txs rcs H,
    fun hne => ?_⟩
  rw [newBlock_bloom E h txs rcs H, if_neg hne]

/-- Witness for C1 at a closed input with one transaction and one
receipt. -/
theorem newBlock_derived_roots_witness :
    (NewBlock cE cHdr [⟨100⟩] [⟨100⟩] cHeap0).1.header.txHash =
      cE.deriveShaTxs [⟨100⟩] ∧
    (NewBlock cE cHdr [⟨100⟩] [⟨100⟩] cHeap0).1.header.receiptHash =
      cE.deriveShaRcs [⟨100⟩] ∧
    (NewBlock cE cHdr [⟨100⟩] [⟨100⟩] cHeap0).1.header.bloom =
      cE.createBloom [⟨100⟩] := by
  obtain ⟨h1, h2, h3⟩ := newBlock_derived_roots cE cHdr [⟨100⟩] [⟨100⟩] cHeap0
  refine ⟨?_, ?_, h3 (by decide)⟩
  · rw [h1, if_neg (by decide)]
  · rw [h2, if_neg (by decide)]

/-- C4: `NewBlock(h, txs, [])` with an empty receipt list leaves the
header's `Bloom` exactly equal to the caller-supplied header's `Bloom`
(neither zeroed nor recomputed), while `ReceiptHash` is still set to the
empty-set root constant. -/
theorem newBlock_empty_receipts_bloom (E : Externals) (h : Header)
    (txs : List Transaction) (H : Heap) :
    (NewBlock E h txs [] H).1.header.bloom = h.bloom ∧
    (NewBlock E h txs [] H).1.header.receiptHash = EmptyRootHash E := by
  constructor
  · rw [newBlock_bloom E h txs [] H, if_pos rfl]
  · rw [newBlock_receiptHash E h txs [] H, if_pos rfl]

/-! ### Heap-congruence and accessor lemmas -/

theorem val_congr_on (h : Header) (H1 H2 : Heap)
    (hi : ∀ a, h.difficulty = some a ∨ h.number = some a ∨ h.time = some a →
      H1.ints a = H2.ints a)
    (hb : ∀ a, h.extra = some a → H1.bytes a = H2.bytes a) :
    h.val H1 = h.val H2 := by
  unfold Header.val
  have e1 : bigIntVal H1 h.difficulty = bigIntVal H2 h.difficulty := by
    cases hh : h.difficulty with
    | none => rfl
    | some b => exact hi b (Or.inl hh)
  have e2 : bigIntVal H1 h.number = bigIntVal H2 h.number := by
    cases hh : h.number with
    | none => rfl
    | some b => exact hi b (Or.inr (Or.inl hh))
  have e3 : bigIntVal H1 h.time = bigIntVal H2 h.time := by
    cases hh : h.time with
    | none => rfl
    | some b => exact hi b (Or.inr (Or.inr hh))
  have e4 : sliceBytes H1 h.extra = sliceBytes H2 h.extra := by
    cases hh : h.extra with
    | none => rfl
    | some b => exact hb b hh
  rw [e1, e2, e3, e4]

theorem headerValAlloc_val (hv : HeaderVal) (H : Heap) :
    (hv.alloc H).1.val (hv.alloc H).2 = hv := by
  unfold HeaderVal.alloc Header.val
  dsimp only
  simp only [bigIntVal, sliceBytes, Heap.allocInt, Heap.allocBytes,
    HeaderVal.mk.injEq]
  norm_num
  rw [if_neg (show ¬H.next = H.next + 1 + 1 by omega)]

theorem headerValAlloc_wf (hv : HeaderVal) (H : Heap) :
    (hv.alloc H).1.wf (hv.alloc H).2 := by
  unfold HeaderVal.alloc Header.wf
  dsimp only
  simp [optWf, Heap.allocInt, Heap.allocBytes]
  omega

/-- C5 counterexample: the claim asserts the copy's extraData byte
sequence always occupies freshly allocated storage, but when the source
header's `Extra` is a non-nil slice of length 0 (`cHdrX` points at cell 0
of `cHeapD`, which holds `[]` and whose allocation frontier is 1),
`CopyHeader` copies the slice descriptor as-is: the copy's extraData holds
the pre-existing address 0, shared with the source, not fresh storage. -/
theorem copyHeader_extra_not_fresh :
    cHdrX.extra = some 0 ∧ 0 < cHeapD.next ∧
    (CopyHeader cHdrX cHeapD).1.extra = some 0 := by
  refine ⟨rfl, by decide, ?_⟩
  exact (copyHeader_extra_zero cHdrX cHeapD (by decide)).1

/-- C5 (amended): `CopyHeader(h)` returns a header whose resolved field
values equal h's (value equality for big integers, byte-wise equality for
extraData, a nil big-integer resolving to zero); the three big-integer
fields always occupy freshly allocated storage and the extraData byte
sequence occupies freshly allocated storage whenever it is non-empty (an
empty or nil extraData descriptor is copied as-is); mutating any field of
the copy never mutates h and vice versa, in all cases; when any of
`Time`, `Difficulty`, `Number` is nil the call does not fail and the copy
holds a freshly allocated zero for that field. -/
theorem copyHeader_deep_copy (h : Header) (H : Heap) (hw : h.wf H) :
    (CopyHeader h H).1.val (CopyHeader h H).2 = h.val H ∧
    (∃ a, (CopyHeader h H).1.time = some a ∧ H.next ≤ a) ∧
    (∃ a, (CopyHeader h H).1.difficulty = some a ∧ H.next ≤ a) ∧
    (∃ a, (CopyHeader h H).1.number = some a ∧ H.next ≤ a) ∧
    (0 < (sliceBytes H h.extra).length →
      ∃ a, (CopyHeader h H).1.extra = some a ∧ H.next ≤ a) ∧
    hdrIndep (CopyHeader h H).2 h (CopyHeader h H).1 ∧
    hdrIndep (CopyHeader h H).2 (CopyHeader h H).1 h ∧
    (h.time = none → (CopyHeader h H).2.ints H.next = 0) ∧
    (h.difficulty = none → (CopyHeader h H).2.ints (H.next + 1) = 0) ∧
    (h.number = none → (CopyHeader h H).2.ints (H.next + 2) = 0) := by
  obtain ⟨ft, fd, fn, _⟩ := copyHeader_fields h H
  obtain ⟨it, idf, inm, _⟩ := copyHeader_heap_ints h H
  obtain ⟨hi1, hi2⟩ := copyHeader_hdrIndep h H hw
  refine ⟨copyHeader_val h H, ⟨H.next, ft, le_refl _⟩,
    ⟨H.next + 1, fd, by omega⟩, ⟨H.next + 2, fn, by omega⟩,
    fun hx => ⟨H.next + 3, (copyHeader_extra_pos h H hx).1, by omega⟩,
    hi1, hi2, fun hn => ?_, fun hn => ?_, fun hn => ?_⟩
  · rw [it, hn]
    rfl
  · rw [idf, hn]
    rfl
  · rw [inm, hn]
    rfl

/-- Witness for C5 at the closed all-nil header `cHdr` in the empty heap:
the copy resolves to the same values and the nil big-integer fields come
back as freshly allocated zeros. -/
theorem copyHeader_deep_copy_witness :
    cHdr.wf cHeap0 ∧
    (CopyHeader cHdr cHeap0).1.val (CopyHeader cHdr cHeap0).2 =
      cHdr.val cHeap0 ∧
    (CopyHeader cHdr cHeap0).2.ints cHeap0.next = 0 ∧
    (CopyHeader cHdr cHeap0).2.ints (cHeap0.next + 1) = 0 :=
  ⟨by decide, (copyHeader_deep_copy cHdr cHeap0 (by decide)).1,
   (copyHeader_deep_copy cHdr cHeap0 (by decide)).2.2.2.2.2.2.2.1 rfl,
   (copyHeader_deep_copy cHdr cHeap0 (by decide)).2.2.2.2.2.2.2.2.1 rfl⟩

/-- C2 counterexample: `WithSeal` stores only a shallow struct copy of the
passed-in header, so the stored header's `Difficulty` pointer is the very
address of the caller's (`cHdrD.difficulty = some 0`), and mutating the
passed-in header's big integer (writing 99 through address 0) changes the
block's observed difficulty from 5 to 99 — external mutation of the
passed-in header does affect the Block. -/
theorem withSeal_shallow_counterexample :
    (cBlock.WithSeal cHdrD).header.difficulty = cHdrD.difficulty ∧
    cHdrD.difficulty = some 0 ∧
    ((cBlock.WithSeal cHdrD).header.val cHeapD).difficulty = 5 ∧
    ((cBlock.WithSeal cHdrD).header.val
      (cHeapD.writeInt 0 99)).difficulty = 99 := by
  exact ⟨rfl, rfl, by decide, by decide⟩

/-- C2 (amended): `NewBlock` and `NewBlockWithHeader` store an
independent deep copy of the passed-in header (mutation through either
side's pointers never changes the other side's resolved view), and the
accessors `Number`, `Difficulty`, `Time`, `Extra` return freshly
allocated copies whose mutation never affects the block, with `Header()`
returning a full deep copy; `WithSeal`, however, stores a shallow struct
copy whose big-integer and extraData pointers alias the passed-in
header's. -/
theorem extraOf_none (b : Block) (H : Heap) (hx : b.header.extra = none) :
    b.extraOf H = (none, H) := by
  unfold Block.extraOf
  rw [hx]

theorem extraOf_some (b : Block) (H : Heap) (a0 : Nat)
    (hx : b.header.extra = some a0) :
    b.extraOf H = (some H.next, (H.allocBytes (H.bytes a0)).2) := by
  unfold Block.extraOf
  rw [hx]
  rfl

theorem header_copy_semantics (E : Externals) (h : Header)
    (txs : List Transaction) (rcs : List ContractResult) (b : Block)
    (H : Heap) (hw : h.wf H) (hbw : b.header.wf H) :
    (hdrIndep (NewBlock E h txs rcs H).2 h
        (NewBlock E h txs rcs H).1.header ∧
      hdrIndep (NewBlock E h txs rcs H).2
        (NewBlock E h txs rcs H).1.header h) ∧
    (hdrIndep (NewBlockWithHeader h H).2 h
        (NewBlockWithHeader h H).1.header ∧
      hdrIndep (NewBlockWithHeader h H).2
        (NewBlockWithHeader h H).1.header h) ∧
    ((b.number H).2.ints (b.number H).1 = bigIntVal H b.header.number ∧
      ∀ v, b.header.val ((b.number H).2.writeInt (b.number H).1 v) =
        b.header.val H) ∧
    ((b.difficulty H).2.ints (b.difficulty H).1 =
        bigIntVal H b.header.difficulty ∧
      ∀ v, b.header.val ((b.difficulty H).2.writeInt (b.difficulty H).1 v) =
        b.header.val H) ∧
    ((b.time H).2.ints (b.time H).1 = bigIntVal H b.header.time ∧
      ∀ v, b.header.val ((b.time H).2.writeInt (b.time H).1 v) =
        b.header.val H) ∧
    (∀ a, (b.extraOf H).1 = some a →
      (b.extraOf H).2.bytes a = sliceBytes H b.header.extra ∧
      ∀ i v, b.header.val ((b.extraOf H).2.writeByteAt a i v) =
        b.header.val H) ∧
    ((b.headerCopy H).1.val (b.headerCopy H).2 = b.header.val H ∧
      hdrIndep (b.headerCopy H).2 b.header (b.headerCopy H).1 ∧
      hdrIndep (b.headerCopy H).2 (b.headerCopy H).1 b.header ∧
      (b.WithSeal h).header = h) := by
  obtain ⟨ft, fd, fn, _⟩ := copyHeader_fields h H
  obtain ⟨pd, pn, pt, px⟩ := newBlock_header_ptrs E h txs rcs H
  obtain ⟨bother, _⟩ := copyHeader_heap_bytes h H
  obtain ⟨wbd, wbn, wbt, wbx⟩ := hbw
  have hwlt : ∀ o a, optWf H.next o = true → o = some a → a < H.next := by
    intro o a ho he
    subst he
    simpa [optWf] using ho
  have accInt : ∀ k : Int,
      (H.allocInt k).2.ints (H.allocInt k).1 = k ∧
      ∀ v, b.header.val ((H.allocInt k).2.writeInt (H.allocInt k).1 v) =
        b.header.val H := by
    intro k
    refine ⟨allocInt_ints_self H k, fun v => ?_⟩
    refine val_congr_on b.header _ H (fun a ha => ?_) (fun a ha => rfl)
    have halt : a < H.next := by
      rcases ha with h1 | h1 | h1
      · exact hwlt _ _ wbd h1
      · exact hwlt _ _ wbn h1
      · exact hwlt _ _ wbt h1
    have hne : a ≠ (H.allocInt k).1 := by
      show a ≠ H.next
      omega
    rw [writeInt_ints_ne _ _ _ _ hne, allocInt_ints_ne _ _ _ (by omega)]
  refine ⟨?_, ?_, accInt _, accInt _, accInt _, ?_, ?_⟩
  · refine copyLike_hdrIndep h (NewBlock E h txs rcs H).1.header H
      (NewBlock E h txs rcs H).2 hw (by rw [pd, fd]) (by rw [pn, fn])
      (by rw [pt, ft]) px (fun a ha => ?_)
    rw [newBlock_bytes E h txs rcs H]
    exact bother a (by omega)
  · exact copyHeader_hdrIndep h H hw
  · intro a ha
    cases hx : b.header.extra with
    | none =>
      rw [extraOf_none b H hx] at ha
      exact absurd ha (by simp)
    | some a0 =>
      rw [extraOf_some b H a0 hx] at ha ⊢
      dsimp only at ha ⊢
      have haa : a = H.next := (Option.some.inj ha).symm
      subst haa
      constructor
      · rw [allocBytes_bytes_self]
        rfl
      · intro i v
        refine val_congr_on b.header _ H (fun x hxp => ?_) (fun x hxb => ?_)
        · rw [writeByteAt_ints, allocBytes_ints]
        · have hxlt : x < H.next := hwlt _ _ wbx hxb
          have hne : x ≠ H.next := by omega
          rw [writeByteAt_bytes_ne _ _ _ _ _ hne,
            allocBytes_bytes_ne _ _ _ hne]
  · exact ⟨copyHeader_val b.header H,
      (copyHeader_hdrIndep b.header H ⟨wbd, wbn, wbt, wbx⟩).1,
      (copyHeader_hdrIndep b.header H ⟨wbd, wbn, wbt, wbx⟩).2, rfl⟩

/-- Witness for C2 at closed inputs: the all-nil header and empty block
in the empty heap, exercising the `Number` accessor copy and the
`WithSeal` shallow-copy conjunct. -/
theorem header_copy_semantics_witness :
    cHdr.wf cHeap0 ∧
    (cBlock.number cHeap0).2.ints (cBlock.number cHeap0).1 =
      bigIntVal cHeap0 cBlock.header.number ∧
    (cBlock.WithSeal cHdr).header = cHdr :=
  ⟨by decide,
   (header_copy_semantics cE cHdr [] [] cBlock cHeap0 (by decide)
     (by decide)).2.2.1.1,
   (header_copy_semantics cE cHdr [] [] cBlock cHeap0 (by decide)
     (by decide)).2.2.2.2.2.2.2.2.2⟩

/-- C3: `Block.Hash()` is stable across repeated calls and equals
`Header.Hash()` of the block's own header, which is the Keccak-256 hash
of the header's canonical relay-format encoding; the first call computes
and caches the value, subsequent calls return the cached value.  The
hypothesis states the cache is in a reachable state: unset (as every
constructor leaves it) or already holding the header hash. -/
theorem block_hash_stable (E : Externals) (H : Heap) (b : Block)
    (hc : b.hashCache = none ∨ b.hashCache = some (b.header.hashOf E H)) :
    (b.hashGet E H).1 = b.header.hashOf E H ∧
    (b.hashGet E H).2.hashCache = some (b.header.hashOf E H) ∧
    ((b.hashGet E H).2.hashGet E H).1 = (b.hashGet E H).1 ∧
    b.header.hashOf E H = E.keccak (encHeaderVal (b.header.val H)) := by
  rcases hc with hnone | hsome
  · unfold Block.hashGet
    rw [hnone]
    exact ⟨rfl, rfl, rfl, rfl⟩
  · simp [Block.hashGet, hsome]
    rfl

/-- Witness for C3 on the closed block `cBlock`, whose hash cache is
unset. -/
theorem block_hash_stable_witness :
    cBlock.hashCache = none ∧
    (cBlock.hashGet cE cHeap0).1 = cBlock.header.hashOf cE cHeap0 ∧
    ((cBlock.hashGet cE cHeap0).2.hashGet cE cHeap0).1 =
      (cBlock.hashGet cE cHeap0).1 :=
  ⟨rfl, (block_hash_stable cE cHeap0 cBlock (Or.inl rfl)).1,
   (block_hash_stable cE cHeap0 cBlock (Or.inl rfl)).2.2.1⟩

/-- C7: whenever the canonical decoding engine fails on a malformed,
truncated or structurally invalid byte input, `Block.DecodeRLP` returns
that error to the caller and leaves the target block's header,
transaction list, receipt list — and the heap — unchanged. -/
theorem decode_error_state_unchanged (b : Block) (H : Heap)
    (bs : List Nat) (e : String) (he : parseExtblock bs = .error e) :
    b.decodeRLP H bs = (.error e, b, H) := by
  unfold Block.decodeRLP
  rw [he]

/-- Witness for C7 on the closed malformed input `[]`. -/
theorem decode_error_state_unchanged_witness :
    parseExtblock [] = .error "not a list" ∧
    cBlock.decodeRLP cHeap0 [] = (.error "not a list", cBlock, cHeap0) :=
  ⟨rfl, decode_error_state_unchanged cBlock cHeap0 [] "not a list" rfl⟩

/-- C8: `Transaction(x)` linearly scans the block's transaction list and
returns a transaction whose `Hash()` equals `x` when one exists and the
absence value `nil` when none matches; `ContrcatReceipt(x)` does the same
over the receipt list matching the receipts' `TxHash`. -/
theorem lookup_linear_scan (b : Block) (H : Heap) (x : Hash) :
    (b.transaction H x = none ↔ ∀ t ∈ b.txList H, t.hash ≠ x) ∧
    (∀ t, b.transaction H x = some t → t ∈ b.txList H ∧ t.hash = x) ∧
    (b.ContrcatReceipt H x = none ↔ ∀ r ∈ b.rcList H, r.txHash ≠ x) ∧
    (∀ r, b.ContrcatReceipt H x = some r →
      r ∈ b.rcList H ∧ r.txHash = x) := by
  unfold Block.transaction Block.ContrcatReceipt
  refine ⟨?_, ?_, ?_, ?_⟩
  · rw [List.find?_eq_none]
    simp
  · intro t ht
    have h1 := List.find?_some ht
    have h2 := List.mem_of_find?_eq_some ht
    simp at h1
    exact ⟨h2, h1⟩
  · rw [List.find?_eq_none]
    simp
  · intro r hr
    have h1 := List.find?_some hr
    have h2 := List.mem_of_find?_eq_some hr
    simp at h1
    exact ⟨h2, h1⟩

/-- Witness for C8 on a closed block holding transactions with hashes
100, 200 and one receipt for 100: the matching transaction is found in
the list, and looking up hash 7 among receipts reports absence. -/
theorem lookup_linear_scan_witness :
    (⟨100⟩ : Transaction) ∈ cBlockTx.txList cHeapTx ∧
    (⟨100⟩ : Transaction).hash = 100 ∧
    cBlockTx.ContrcatReceipt cHeapTx 7 = none := by
  obtain ⟨hm, hh⟩ :=
    (lookup_linear_scan cBlockTx cHeapTx 100).2.1 ⟨100⟩ (by decide)
  exact ⟨hm, hh, (lookup_linear_scan cBlockTx cHeapTx 7).2.2.1.mpr
    (by decide)⟩

/-- C10: the body accessors `Transactions()`, `Receiptions()`,
`ContractReceipts()` and `Body()` return the block's internal slice
descriptors without any defensive copy, so the caller and the block share
backing storage: replacing the shared cell's contents through the
returned descriptor is observed by the block. -/
theorem body_accessors_share (b : Block) (H : Heap) :
    b.Transactions = b.transactions ∧
    b.Receiptions = b.receipts ∧
    b.ContractReceipts = b.receipts ∧
    (b.body).transactions = b.transactions ∧
    (b.body).receipts = b.receipts ∧
    (∀ a l, b.Transactions = some a → b.txList (H.writeTxs a l) = l) ∧
    (∀ a l, b.ContractReceipts = some a → b.rcList (H.writeRcs a l) = l) := by
  refine ⟨rfl, rfl, rfl, rfl, rfl, fun a l ha => ?_, fun a l ha => ?_⟩
  · unfold Block.Transactions at ha
    unfold Block.txList sliceTxs
    rw [ha]
    simp [Heap.writeTxs]
  · unfold Block.ContractReceipts at ha
    unfold Block.rcList sliceRcs
    rw [ha]
    simp [Heap.writeRcs]

/-- Witness for C10: mutating the transaction slice cell shared with
`cBlockTx` through the accessor's descriptor is observed by the block. -/
theorem body_accessors_share_witness :
    cBlockTx.Transactions = some 0 ∧
    cBlockTx.txList (cHeapTx.writeTxs 0 [⟨7⟩]) = [⟨7⟩] :=
  ⟨rfl, (body_accessors_share cBlockTx cHeapTx).2.2.2.2.2.1 0 [⟨7⟩] rfl⟩

/-- C6: decoding a relay-format byte blob populates the block's header,
transaction list and receipt list and stores the decoded byte length in
the size cache, so `Size()` of a block decoded from an encoding of length
L returns L straight from the cache; and for any block whose size cache
is unset, `Size()` computes the byte length of the block's relay-format
encoding, caches it, and returns it. -/
theorem decode_populates_and_caches_size (b : Block) (H : Heap)
    (hv : HeaderVal) (txs : List Transaction) (rcs : List ContractResult)
    (b2 : Block) (H2 : Heap) (h2 : b2.sizeCache = none) :
    (b.decodeRLP H (encodeExtBytes hv txs rcs)).1 = .ok () ∧
    (b.decodeRLP H (encodeExtBytes hv txs rcs)).2.1.header.val
      (b.decodeRLP H (encodeExtBytes hv txs rcs)).2.2 = hv ∧
    (b.decodeRLP H (encodeExtBytes hv txs rcs)).2.1.txList
      (b.decodeRLP H (encodeExtBytes hv txs rcs)).2.2 = txs ∧
    (b.decodeRLP H (encodeExtBytes hv txs rcs)).2.1.rcList
      (b.decodeRLP H (encodeExtBytes hv txs rcs)).2.2 = rcs ∧
    (b.decodeRLP H (encodeExtBytes hv txs rcs)).2.1.sizeCache =
      some (encodeExtBytes hv txs rcs).length ∧
    ((b.decodeRLP H (encodeExtBytes hv txs rcs)).2.1.sizeGet
      (b.decodeRLP H (encodeExtBytes hv txs rcs)).2.2).1 =
      (encodeExtBytes hv txs rcs).length ∧
    (b2.sizeGet H2).1 = (b2.encodeBytes H2).length ∧
    (b2.sizeGet H2).2.sizeCache = some ((b2.encodeBytes H2).length) := by
  have hps := parseExtblock_enc hv txs rcs
  have hsz : (b.decodeRLP H (encodeExtBytes hv txs rcs)).2.1.sizeCache =
      some (encodeExtBytes hv txs rcs).length := by
    unfold Block.decodeRLP
    rw [hps]
    dsimp only
    rw [← encodeExtBytes_length hv txs rcs]
  refine ⟨?_, ?_, ?_, ?_, hsz, ?_, ?_, ?_⟩
  · unfold Block.decodeRLP
    rw [hps]
  · unfold Block.decodeRLP
    rw [hps]
    dsimp only
    exact (val_congr_on (hv.alloc H).1
      (((hv.alloc H).2.allocTxs txs).2.allocRcs rcs).2 (hv.alloc H).2
      (fun a _ => rfl) (fun a _ => rfl)).trans (headerValAlloc_val hv H)
  · unfold Block.decodeRLP
    rw [hps]
    dsimp only
    exact allocTxs_txs_self (hv.alloc H).2 txs
  · unfold Block.decodeRLP
    rw [hps]
    dsimp only
    exact allocRcs_rcs_self ((hv.alloc H).2.allocTxs txs).2 rcs
  · unfold Block.sizeGet
    rw [hsz]
  · unfold Block.sizeGet
    rw [h2]
  · unfold Block.sizeGet
    rw [h2]

/-- Witness for C6: decode the closed relay-format blob for `cHv` with
one transaction and one receipt, and run `Size()` on the closed block
`cBlock`, whose size cache is unset. -/
theorem decode_populates_and_caches_size_witness :
    (cBlock.decodeRLP cHeap0 (encodeExtBytes cHv [⟨100⟩] [⟨100⟩])).1 =
      .ok () ∧
    (cBlock.decodeRLP cHeap0
        (encodeExtBytes cHv [⟨100⟩] [⟨100⟩])).2.1.sizeCache =
      some (encodeExtBytes cHv [⟨100⟩] [⟨100⟩]).length ∧
    (cBlock.sizeGet cHeap0).1 = (cBlock.encodeBytes cHeap0).length :=
  ⟨(decode_populates_and_caches_size cBlock cHeap0 cHv [⟨100⟩] [⟨100⟩]
      cBlock cHeap0 rfl).1,
   (decode_populates_and_caches_size cBlock cHeap0 cHv [⟨100⟩] [⟨100⟩]
      cBlock cHeap0 rfl).2.2.2.2.1,
   (decode_populates_and_caches_size cBlock cHeap0 cHv [⟨100⟩] [⟨100⟩]
      cBlock cHeap0 rfl).2.2.2.2.2.2.1⟩

/-- C9: sorting a collection of blocks via `BlockBy.Sort` with the
standard by-number comparator `Number` — which compares the headers'
unbounded big-integer `Number` fields — yields a sequence in which each
element's number is less than or equal to the next; and sorting an
already number-sorted collection leaves the number sequence unchanged. -/
theorem sort_by_number (H : Heap) (blocks : List Block) :
    List.Chain' (fun b1 b2 =>
      bigIntVal H b1.header.number ≤ bigIntVal H b2.header.number)
      (BlockBy.Sort (numberLess H) blocks) ∧
    (List.Chain' (fun b1 b2 =>
        bigIntVal H b1.header.number ≤ bigIntVal H b2.header.number)
        blocks →
      (BlockBy.Sort (numberLess H) blocks).map
          (fun b => bigIntVal H b.header.number) =
        blocks.map (fun b => bigIntVal H b.header.number)) := by
  have htrans : ∀ a b c : Block,
      (!numberLess H b a) = true → (!numberLess H c b) = true →
      (!numberLess H c a) = true := by
    intro a b c h1 h2
    simp only [numberLess, Bool.not_eq_eq_eq_not, Bool.not_true,
      decide_eq_false_iff_not, Int.not_lt] at *
    omega
  have htotal : ∀ a b : Block,
      ((!numberLess H b a) || (!numberLess H a b)) = true := by
    intro a b
    simp only [numberLess, Bool.or_eq_true, Bool.not_eq_eq_eq_not,
      Bool.not_true, decide_eq_false_iff_not, Int.not_lt]
    omega
  have hs := List.sorted_mergeSort htrans htotal blocks
  constructor
  · have hp : List.Pairwise (fun b1 b2 =>
        bigIntVal H b1.header.number ≤ bigIntVal H b2.header.number)
        (BlockBy.Sort (numberLess H) blocks) := by
      refine hs.imp ?_
      intro a b hab
      simp only [numberLess, Bool.not_eq_eq_eq_not, Bool.not_true,
        decide_eq_false_iff_not, Int.not_lt] at hab
      omega
    exact hp.chain'
  · intro hsorted
    haveI : IsTrans Block (fun b1 b2 =>
        bigIntVal H b1.header.number ≤ bigIntVal H b2.header.number) :=
      ⟨fun a b c h1 h2 => le_trans h1 h2⟩
    have hpw := List.chain'_iff_pairwise.mp hsorted
    have hple : List.Pairwise
        (fun b1 b2 => (!numberLess H b2 b1) = true) blocks := by
      refine hpw.imp ?_
      intro a b hab
      simp only [numberLess, Bool.not_eq_eq_eq_not, Bool.not_true,
        decide_eq_false_iff_not, Int.not_lt]
      omega
    have heq : BlockBy.Sort (numberLess H) blocks = blocks :=
      List.mergeSort_of_sorted hple
    rw [heq]

/-- Witness for C9 on a closed two-block collection whose numbers are
already sorted. -/
theorem sort_by_number_witness :
    List.Chain' (fun b1 b2 =>
      bigIntVal cHeap0 b1.header.number ≤ bigIntVal cHeap0 b2.header.number)
      [cBlock, cBlockTx] ∧
    (BlockBy.Sort (numberLess cHeap0) [cBlock, cBlockTx]).map
        (fun b => bigIntVal cHeap0 b.header.number) =
      [cBlock, cBlockTx].map (fun b => bigIntVal cHeap0 b.header.number) := by
  have hch : List.Chain' (fun b1 b2 =>
      bigIntVal cHeap0 b1.header.number ≤ bigIntVal cHeap0 b2.header.number)
      [cBlock, cBlockTx] :=
    List.chain'_cons.mpr ⟨by decide, List.chain'_singleton _⟩
  exact ⟨hch, (sort_by_number cHeap0 [cBlock, cBlockTx]).2 hch⟩

end EDX
